import Mathlib

/-!
# reva: posix blobstore and store-backed id cache

A shallow embedding of

* `pkg/storage/fs/posix/lookup/store_idcache.go` (`StoreIDCache`), and
* `pkg/storage/fs/posix/blobstore/blobstore.go` (`Blobstore`),

followed by theorems about them.

Go `string` values are Lean `String`s, so the strings of the model are the Go strings that
hold valid UTF-8 (identifiers and paths are text). The separators that matter here (`!`, `/`,
`.`) are ASCII, so working on characters instead of bytes does not change where such a string
is cut.

The Go library functions the sources call (`strings.SplitN`, `filepath.Clean`,
`filepath.Join`, `filepath.Dir`, the `os` calls) are modelled from their documented
behaviour on Unix. The filesystem is the map from paths to file contents; the backend of the
cache is any implementation of the two `microstore.Store` methods used. The `Traced` variants
of `Upload`, `Download` and `Delete` return, next to the result, the filesystem calls made
together with the paths they are given.
-/

/-- Go `error` values: a plain message, a wrapped error (`errors.Wrap`), or the size
mismatch reported by `Download`. -/
inductive Error where
  | msg (text : String)
  | wrap (cause : Error) (text : String)
  | unexpectedSize (expected got : Int)
  deriving DecidableEq, Repr

deriving instance DecidableEq for Except

namespace lookup

/-- A `microstore.Record`: only the two fields the cache uses. `Value` is a `[]byte` in Go and
is only ever produced by `[]byte(s)` and consumed by `string(b)`, so it is kept as a string. -/
structure Record where
  Key : String
  Value : String
  deriving DecidableEq, Repr

/-- The part of the `microstore.Store` interface the cache uses, with the backend's state `σ`
passed explicitly. `Write` returns the state after the call and the Go `error` (`none` is
`nil`); `Read` returns the Go result pair `([]*Record, error)`. -/
structure Store (σ : Type) where
  Write : σ → Record → σ × Option Error
  Read : σ → String → List Record × Option Error

/-- Cut a string at the first occurrence of `sep`: the part before and the part after. -/
def cut (sep : Char) : List Char → Option (List Char × List Char)
  | [] => none
  | c :: cs =>
    if c = sep then some ([], cs)
    else match cut sep cs with
      | none => none
      | some (a, b) => some (c :: a, b)

/-- Go `strings.SplitN(s, sep, n)` for a one-character separator and `n ≥ 0`: at most `n`
pieces, the last one being the unsplit remainder. -/
def splitN (sep : Char) : Nat → List Char → List (List Char)
  | 0, _ => []
  | 1, s => [s]
  | n + 2, s =>
    match cut sep s with
    | none => [s]
    | some (a, b) => a :: splitN sep (n + 1) b

/-- Go `strings.SplitN(s, "!", n)` on strings. -/
def SplitN (s : String) (sep : Char) (n : Nat) : List String :=
  (splitN sep n s.data).map String.mk

/-- Source: `cacheKey`. -/
def cacheKey (spaceid nodeID : String) : String :=
  spaceid ++ "!" ++ nodeID

/-- Source: `reverseCacheKey`. -/
def reverseCacheKey (val : String) : String :=
  val

/-- Source: `StoreIDCache.Set`. Returns the backend state after the call and the error. -/
def Set {σ : Type} (S : Store σ) (st : σ) (spaceID nodeID val : String) : σ × Option Error :=
  match S.Write st ⟨cacheKey spaceID nodeID, val⟩ with
  | (st1, some err) => (st1, some err)
  | (st1, none) => S.Write st1 ⟨reverseCacheKey val, cacheKey spaceID nodeID⟩

/-- Source: `StoreIDCache.Get`. -/
def Get {σ : Type} (S : Store σ) (st : σ) (spaceID nodeID : String) : String × Bool :=
  match S.Read st (cacheKey spaceID nodeID) with
  | (_, some _) => ("", false)
  | ([], none) => ("", false)
  | (r :: _, none) => (r.Value, true)

/-- Source: `StoreIDCache.GetReverse`. -/
def GetReverse {σ : Type} (S : Store σ) (st : σ) (val : String) : String × String × Bool :=
  match S.Read st (reverseCacheKey val) with
  | (_, some _) => ("", "", false)
  | ([], none) => ("", "", false)
  | (r :: _, none) =>
    match SplitN r.Value '!' 2 with
    | [a, b] => (a, b, true)
    | _ => ("", "", false)

/-- A backend that behaves as a faithful key-value map: a successful write makes exactly the
written record readable under its key and leaves every other key alone; a failed write
changes nothing. -/
structure Faithful {σ : Type} (S : Store σ) : Prop where
  write_ok : ∀ st r st1, S.Write st r = (st1, none) →
    ∀ k, S.Read st1 k = if k = r.Key then ([r], none) else S.Read st k
  write_err : ∀ st r st1 e, S.Write st r = (st1, some e) → st1 = st

/-- A read that `Get` and `GetReverse` treat as a miss: an error or no record. -/
def Miss {σ : Type} (S : Store σ) (st : σ) (k : String) : Prop :=
  (S.Read st k).2 ≠ none ∨ (S.Read st k).1 = []

/-- Run `Set` for each `(spaceID, nodeID, val)` of a list in order, stopping at the first
error. -/
def setAll {σ : Type} (S : Store σ) : σ → List (String × String × String) → σ × Option Error
  | st, [] => (st, none)
  | st, (s, n, v) :: rest =>
    match Set S st s n v with
    | (st1, some err) => (st1, some err)
    | (st1, none) => setAll S st1 rest

/-- State of a bounded in-memory store: the records written so far, newest first, and the
number of records it accepts. -/
structure Mem where
  entries : List Record
  capacity : Nat
  deriving DecidableEq, Repr

/-- First record with the given key. -/
def findKey (k : String) : List Record → Option Record
  | [] => none
  | r :: rs => if r.Key = k then some r else findKey k rs

/-- A bounded in-memory key-value store: a write is refused once `capacity` records are
held, a read of an absent key reports "not found". -/
def memStore : Store Mem where
  Write := fun st r =>
    if st.entries.length < st.capacity then (⟨r :: st.entries, st.capacity⟩, none)
    else (st, some (Error.msg "store full"))
  Read := fun st k =>
    match findKey k st.entries with
    | some r => ([r], none)
    | none => ([], some (Error.msg "not found"))

end lookup

namespace filepath

/-- The elements of a path: the pieces between separators `/` (possibly empty). -/
def splitSlash : List Char → List (List Char)
  | [] => [[]]
  | c :: cs =>
    if c = '/' then [] :: splitSlash cs
    else match splitSlash cs with
      | [] => [[c]]
      | e :: es => (c :: e) :: es

/-- Elements joined by the separator `/`. -/
def joinSlash : List (List Char) → List Char
  | [] => []
  | [e] => e
  | e :: es => e ++ '/' :: joinSlash es

/-- One round of the loop of Go `filepath.Clean`, on a whole path element. `out` holds the
elements written so far, last written first. An empty element and `.` are skipped; `..`
removes the last written element when there is one that is not itself a kept `..`, is
dropped at the root of a rooted path, and is kept in front of a relative path; any other
element is written. -/
def cleanStep (rooted : Bool) (out : List (List Char)) (elem : List Char) : List (List Char) :=
  if elem = [] then out
  else if elem = ['.'] then out
  else if elem = ['.', '.'] then
    match out with
    | [] => if rooted then [] else [['.', '.']]
    | last :: rest => if last = ['.', '.'] then elem :: out else rest
  else elem :: out

/-- The elements `filepath.Clean` keeps, in path order. -/
def cleanElems (rooted : Bool) (path : List Char) : List (List Char) :=
  ((splitSlash path).foldl (cleanStep rooted) []).reverse

/-- Go `filepath.Clean` (Unix, separator `/`) on character lists: the empty path becomes `.`,
a rooted result is `/` followed by the kept elements, a relative result with no element
is `.`. -/
def cleanChars (path : List Char) : List Char :=
  match path with
  | [] => ['.']
  | c :: _ =>
    if c = '/' then '/' :: joinSlash (cleanElems true path)
    else if cleanElems false path = [] then ['.']
    else joinSlash (cleanElems false path)

/-- Go `filepath.Clean`. -/
def Clean (path : String) : String :=
  ⟨cleanChars path.data⟩

/-- Go `strings.Join(elems, "/")`. -/
def joinElems (elems : List String) : String :=
  ⟨joinSlash (elems.map String.data)⟩

/-- Go `filepath.Join` (Unix): the elements from the first non-empty one on are joined with
`/` and cleaned; the result is empty when every element is empty. -/
def Join (elem : List String) : String :=
  match elem.dropWhile (fun e => e = "") with
  | [] => ""
  | e :: es => Clean (joinElems (e :: es))

/-- An element of a clean path: not empty, not `.`, and without a separator. -/
def Kept (e : List Char) : Prop :=
  e ≠ [] ∧ e ≠ ['.'] ∧ '/' ∉ e

end filepath

namespace decomposedfs

/-- Modelled from the spec: `lookup.Pathify` of `pkg/storage/utils/decomposedfs/lookup`, the
path sharder ("shard(id, segments, segmentLength)"), is not among the sources. It splits the
leading characters of the identifier into `depth` elements of `width` characters each,
followed by the remainder as the final element; an identifier too short for a further
element is emitted as it is. -/
def pathifyChars : List Char → Nat → Nat → List Char
  | id, 0, _ => id
  | id, depth + 1, width =>
    if id.length ≤ width then id
    else id.take width ++ '/' :: pathifyChars (id.drop width) depth width

/-- Modelled from the spec: `lookup.Pathify` on strings, see `pathifyChars`. -/
def Pathify (id : String) (depth width : Nat) : String :=
  ⟨pathifyChars id.data depth width⟩

end decomposedfs

namespace blobstore

/-- File contents. -/
abbrev Bytes := List UInt8

/-- The filesystem state the blobstore works on: the regular files, by path. Directories,
permissions and ownership are not part of the state. -/
structure FS where
  files : String → Option Bytes

/-- Outcomes of the system calls of `Upload` that the files alone do not decide: each field
is the error the call fails with, `none` when it does not fail. `readFrom` also gives the
number of bytes copied before the failure. -/
structure Faults where
  mkdirAll : Option Error
  rename : Option Error
  openFile : Option Error
  readFrom : Option (Nat × Error)
  flush : Option Error

/-- An `*os.File`: the path it was opened on. -/
structure File where
  name : String
  deriving DecidableEq, Repr

/-- Go `os.MkdirAll(dir, 0700)`: fails with the given fault, otherwise leaves the files as
they are. -/
def MkdirAll (env : Faults) (fs : FS) (_dir : String) : FS × Option Error :=
  (fs, env.mkdirAll)

/-- Go `os.Rename(source, dest)`: fails with the given fault (for instance across devices)
or when `source` does not exist; otherwise `dest` is replaced by the source file and
`source` is gone (renaming a file to itself changes nothing). -/
def Rename (env : Faults) (fs : FS) (source dest : String) : FS × Option Error :=
  match env.rename with
  | some err => (fs, some err)
  | none =>
    match fs.files source with
    | none => (fs, some (Error.msg "rename: no such file or directory"))
    | some content =>
      (⟨fun p => if p = dest then some content else if p = source then none else fs.files p⟩,
        none)

/-- Go `os.Open(name)`: a read handle on an existing file. -/
def Open (fs : FS) (name : String) : Except Error File :=
  match fs.files name with
  | none => .error (Error.msg "open: no such file or directory")
  | some _ => .ok ⟨name⟩

/-- Go `os.OpenFile(name, os.O_CREATE|os.O_WRONLY, 0700)`: a write handle positioned at
offset 0; the file is created empty when it does not exist and is left as it is when it
does (the flags do not include `O_TRUNC`). -/
def OpenFile (env : Faults) (fs : FS) (name : String) : FS × Except Error File :=
  match env.openFile with
  | some err => (fs, .error err)
  | none =>
    match fs.files name with
    | some _ => (fs, .ok ⟨name⟩)
    | none => (⟨fun p => if p = name then some [] else fs.files p⟩, .ok ⟨name⟩)

/-- Everything a read handle yields when read to the end. -/
def File.ReadAll (fs : FS) (f : File) : Bytes :=
  (fs.files f.name).getD []

/-- Go `(*os.File).Stat().Size()`. -/
def File.Size (fs : FS) (f : File) : Except Error Int :=
  match fs.files f.name with
  | none => .error (Error.msg "stat: no such file or directory")
  | some content => .ok (content.length : Int)

/-- Writing `data` at offset 0 of a file holding `old`: the first `data.length` bytes are
replaced and whatever `old` holds beyond them stays. -/
def writeAt0 (old data : Bytes) : Bytes :=
  data ++ old.drop data.length

/-- Go `bufio.NewWriter(f).ReadFrom(file)`: copies the source file to the write handle `f`
(at offset 0); with a fault only the given number of bytes is copied. -/
def ReadFrom (env : Faults) (fs : FS) (f file : File) : FS × Option Error :=
  let data := file.ReadAll fs
  match env.readFrom with
  | some (n, err) =>
    (⟨fun p => if p = f.name then some (writeAt0 (File.ReadAll fs f) (data.take n))
        else fs.files p⟩, some err)
  | none =>
    (⟨fun p => if p = f.name then some (writeAt0 (File.ReadAll fs f) data) else fs.files p⟩,
      none)

/-- Go `(*bufio.Writer).Flush`. -/
def Flush (env : Faults) (fs : FS) : FS × Option Error :=
  (fs, env.flush)

/-- Go `filepath.Dir`: the path up to its last separator, cleaned. -/
def Dir (path : String) : String :=
  filepath.Clean ⟨(path.data.reverse.dropWhile (fun c => c ≠ '/')).reverse⟩

/-- Source: `Blobstore`. -/
structure Blobstore where
  root : String
  deriving DecidableEq, Repr

/-- Source: `Blobstore.path`. `Pathify` is the sharding helper `lookup.Pathify`, which is not
among the sources and is taken as a parameter. -/
def Blobstore.path (Pathify : String → Nat → Nat → String) (bs : Blobstore)
    (spaceID blobID : String) : Except Error String :=
  if spaceID = "" then .error (Error.msg "blobstore: spaceID is empty")
  else if blobID = "" then .error (Error.msg "blobstore: blobID is empty")
  else .ok (filepath.Join [bs.root,
    filepath.Clean (filepath.Join
      ["/", "spaces", Pathify spaceID 1 2, "blobs", Pathify blobID 4 2])])

/-- Source: `Blobstore.Upload`. Returns the filesystem after the call and the error. -/
def Blobstore.Upload (Pathify : String → Nat → Nat → String) (bs : Blobstore) (env : Faults)
    (fs : FS) (spaceID blobID : String) (_blobSize : Int) (source : String) :
    FS × Option Error :=
  match bs.path Pathify spaceID blobID with
  | .error err => (fs, some err)
  | .ok dest =>
    match MkdirAll env fs (Dir dest) with
    | (fs1, some err) =>
      (fs1, some (Error.wrap err
        "Decomposedfs: oCIS blobstore: error creating parent folders for blob"))
    | (fs1, none) =>
      match Rename env fs1 source dest with
      | (fs2, none) => (fs2, none)
      | (fs2, some _) =>
        match Open fs2 source with
        | .error err =>
          (fs2, some (Error.wrap err
            "Decomposedfs: oCIS blobstore: Can not open source file to upload"))
        | .ok file =>
          match OpenFile env fs2 dest with
          | (fs3, .error err) =>
            (fs3, some (Error.wrap err ("could not open blob " ++ dest ++ " for writing")))
          | (fs3, .ok f) =>
            match ReadFrom env fs3 f file with
            | (fs4, some err) =>
              (fs4, some (Error.wrap err ("could not write blob " ++ dest)))
            | (fs4, none) => Flush env fs4

/-- Source: `Blobstore.Download`. Returns the open read handle or the error. -/
def Blobstore.Download (Pathify : String → Nat → Nat → String) (bs : Blobstore) (fs : FS)
    (spaceID blobID : String) (blobSize : Int) : Except Error File :=
  match bs.path Pathify spaceID blobID with
  | .error err => .error err
  | .ok dest =>
    match Open fs dest with
    | .error err => .error (Error.wrap err ("could not read blob " ++ dest))
    | .ok file =>
      match file.Size fs with
      | .error err => .error (Error.wrap err ("could not stat blob " ++ dest))
      | .ok size =>
        if size ≠ blobSize then .error (Error.unexpectedSize blobSize size)
        else .ok file

/-- No system call fails on its own. -/
def noFaults : Faults :=
  ⟨none, none, none, none, none⟩

/-- The rename fails because source and destination are on different devices; nothing else
fails on its own. -/
def crossDevice : Faults :=
  ⟨none, some (Error.msg "rename: invalid cross-device link"), none, none, none⟩

/-- A filesystem holding two source files, `hello` in `/tmp/src1` and `hi` in `/tmp/src2`. -/
def srcFS : FS :=
  ⟨fun p => if p = "/tmp/src1" then some [104, 101, 108, 108, 111]
    else if p = "/tmp/src2" then some [104, 105] else none⟩

/-- A filesystem holding one blob, `hello`, at the path derived for `space1`, `blobA` under
the root `/tmp/store`. -/
def blobFS : FS :=
  ⟨fun p => if p = "/tmp/store/spaces/sp/ace1/blobs/bl/ob/A" then some [104, 101, 108, 108, 111]
    else none⟩

end blobstore

/-! ## The id cache -/

namespace lookup

theorem cut_eq_none {sep : Char} : ∀ {s : List Char}, sep ∉ s → cut sep s = none
  | [], _ => rfl
  | c :: cs, h => by
    have hc : c ≠ sep := fun e => h (by simp [e])
    have hcs : sep ∉ cs := fun e => h (by simp [e])
    simp [cut, hc, cut_eq_none hcs]

theorem cut_append {sep : Char} : ∀ {a : List Char} (b : List Char), sep ∉ a →
    cut sep (a ++ sep :: b) = some (a, b)
  | [], b, _ => by simp [cut]
  | c :: cs, b, h => by
    have hc : c ≠ sep := fun e => h (by simp [e])
    have hcs : sep ∉ cs := fun e => h (by simp [e])
    simp [cut, hc, cut_append b hcs]

theorem cut_eq_some {sep : Char} : ∀ {s a b : List Char}, cut sep s = some (a, b) →
    s = a ++ sep :: b ∧ sep ∉ a
  | [], a, b, h => by simp [cut] at h
  | c :: cs, a, b, h => by
    by_cases hc : c = sep
    · simp [cut, hc] at h
      obtain ⟨rfl, rfl⟩ := h
      simp [hc]
    · cases hcut : cut sep cs with
      | none => simp [cut, hc, hcut] at h
      | some p =>
        obtain ⟨a1, b1⟩ := p
        simp [cut, hc, hcut] at h
        obtain ⟨rfl, rfl⟩ := h
        obtain ⟨h1, h2⟩ := cut_eq_some hcut
        refine ⟨by simp [h1], ?_⟩
        intro hmem
        rcases List.mem_cons.1 hmem with e | e
        · exact hc e.symm
        · exact h2 e

theorem cut_isSome_of_mem {sep : Char} {s : List Char} (h : sep ∈ s) :
    ∃ a b, cut sep s = some (a, b) := by
  cases hcut : cut sep s with
  | some p => exact ⟨p.1, p.2, rfl⟩
  | none =>
    exfalso
    induction s with
    | nil => simp at h
    | cons c cs ih =>
      by_cases hc : c = sep
      · simp [cut, hc] at hcut
      · rcases List.mem_cons.1 h with e | e
        · exact hc e.symm
        · cases h2 : cut sep cs with
          | none => exact ih e h2
          | some p => simp [cut, hc, h2] at hcut

theorem cacheKey_data (s n : String) : (cacheKey s n).data = s.data ++ '!' :: n.data := by
  simp [cacheKey]

theorem SplitN_cacheKey {s : String} (n : String) (h : '!' ∉ s.data) :
    SplitN (cacheKey s n) '!' 2 = [s, n] := by
  simp [SplitN, splitN, cacheKey_data, cut_append _ h]

theorem memStore_faithful : Faithful memStore := by
  constructor
  · intro st r st1 h k
    by_cases hlt : st.entries.length < st.capacity
    · simp [memStore, hlt] at h
      subst h
      by_cases hk : k = r.Key
      · simp [memStore, findKey, hk]
      · have hk2 : ¬ r.Key = k := fun e => hk e.symm
        simp [memStore, findKey, hk, hk2]
    · simp [memStore, hlt] at h
  · intro st r st1 e h
    by_cases hlt : st.entries.length < st.capacity
    · simp [memStore, hlt] at h
    · simp [memStore, hlt] at h
      exact h.1.symm

theorem Set_ok {σ : Type} {S : Store σ} {st st2 : σ} {s n v : String}
    (h : Set S st s n v = (st2, none)) :
    ∃ st1, S.Write st ⟨cacheKey s n, v⟩ = (st1, none) ∧
      S.Write st1 ⟨v, cacheKey s n⟩ = (st2, none) := by
  unfold Set at h
  rcases hw : S.Write st ⟨cacheKey s n, v⟩ with ⟨st1, e1⟩
  rw [hw] at h
  cases e1 with
  | some e => simp at h
  | none => exact ⟨st1, rfl, by simpa [reverseCacheKey] using h⟩

theorem Get_of_read {σ : Type} {S : Store σ} {st : σ} {s n : String} {r : Record}
    (h : S.Read st (cacheKey s n) = ([r], none)) : Get S st s n = (r.Value, true) := by
  simp [Get, h]

theorem Get_of_miss {σ : Type} {S : Store σ} {st : σ} {s n : String}
    (h : Miss S st (cacheKey s n)) : Get S st s n = ("", false) := by
  unfold Miss at h
  unfold Get
  rcases hr : S.Read st (cacheKey s n) with ⟨rs, e⟩
  rw [hr] at h
  cases e with
  | some e => cases rs <;> rfl
  | none =>
    cases rs with
    | nil => rfl
    | cons r rs => simp at h

theorem GetReverse_of_miss {σ : Type} {S : Store σ} {st : σ} {v : String}
    (h : Miss S st v) : GetReverse S st v = ("", "", false) := by
  unfold Miss at h
  unfold GetReverse reverseCacheKey
  rcases hr : S.Read st v with ⟨rs, e⟩
  rw [hr] at h
  cases e with
  | some e => cases rs <;> rfl
  | none =>
    cases rs with
    | nil => rfl
    | cons r rs => simp at h

theorem read_after_Set {σ : Type} {S : Store σ} (hS : Faithful S) {st st2 : σ}
    {s n v : String} (h : Set S st s n v = (st2, none)) (k : String) :
    S.Read st2 k =
      if k = v then ([⟨v, cacheKey s n⟩], none)
      else if k = cacheKey s n then ([⟨cacheKey s n, v⟩], none)
      else S.Read st k := by
  obtain ⟨st1, h1, h2⟩ := Set_ok h
  rw [hS.write_ok _ _ _ h2 k, hS.write_ok _ _ _ h1 k]

theorem read_after_setAll {σ : Type} {S : Store σ} (hS : Faithful S) :
    ∀ (calls : List (String × String × String)) (st0 st : σ),
      setAll S st0 calls = (st, none) → ∀ k : String,
      (∀ c ∈ calls, k ≠ cacheKey c.1 c.2.1 ∧ k ≠ c.2.2) → S.Read st k = S.Read st0 k
  | [], st0, st, h, k, _ => by
    simp [setAll] at h
    rw [h]
  | (s, n, v) :: rest, st0, st, h, k, hk => by
    unfold setAll at h
    rcases hs : Set S st0 s n v with ⟨st1, e1⟩
    rw [hs] at h
    cases e1 with
    | some e => simp at h
    | none =>
      simp only at h
      have hrest := read_after_setAll hS rest st1 st h k
        (fun c hc => hk c (List.mem_cons_of_mem _ hc))
      have hhead := hk (s, n, v) (List.mem_cons_self _ _)
      rw [hrest, read_after_Set hS hs k]
      simp [hhead.1, hhead.2]

/-- C5: over a faithful key-value backend, a `Set(spaceID, nodeID, val)` that returns no error
is followed by `Get(spaceID, nodeID) = (val, true)`, for all strings (also when `val` contains
the separator or equals the compound key). -/
theorem set_then_get {σ : Type} (S : Store σ) (hS : Faithful S) (st st2 : σ)
    (spaceID nodeID val : String) (h : Set S st spaceID nodeID val = (st2, none)) :
    Get S st2 spaceID nodeID = (val, true) := by
  have hr := read_after_Set hS h (cacheKey spaceID nodeID)
  by_cases hk : cacheKey spaceID nodeID = val
  · rw [if_pos hk] at hr
    rw [Get_of_read hr, hk]
  · rw [if_neg hk, if_pos rfl] at hr
    rw [Get_of_read hr]

theorem set_then_get_witness :
    Set memStore ⟨[], 2⟩ "s1" "n1" "s1!n1" =
        (⟨[⟨"s1!n1", "s1!n1"⟩, ⟨"s1!n1", "s1!n1"⟩], 2⟩, none) ∧
      Get memStore ⟨[⟨"s1!n1", "s1!n1"⟩, ⟨"s1!n1", "s1!n1"⟩], 2⟩ "s1" "n1" = ("s1!n1", true) :=
  ⟨by decide, set_then_get memStore memStore_faithful ⟨[], 2⟩
    ⟨[⟨"s1!n1", "s1!n1"⟩, ⟨"s1!n1", "s1!n1"⟩], 2⟩ "s1" "n1" "s1!n1" (by decide)⟩

/-- C6 (as stated, refuted): with spaceID `a!b` and nodeID `c` a successful `Set` on a faithful
backend is followed by `GetReverse(val) = ("a", "b!c", true)`, not `("a!b", "c", true)`. -/
theorem set_then_getReverse_separator_in_spaceID :
    Faithful memStore ∧
      (Set memStore ⟨[], 2⟩ "a!b" "c" "v").2 = none ∧
      GetReverse memStore (Set memStore ⟨[], 2⟩ "a!b" "c" "v").1 "v" = ("a", "b!c", true) ∧
      GetReverse memStore (Set memStore ⟨[], 2⟩ "a!b" "c" "v").1 "v" ≠ ("a!b", "c", true) :=
  ⟨memStore_faithful, by decide, by decide, by decide⟩

/-- C6 (amended): over a faithful key-value backend, when spaceID does not contain the
separator `!`, a `Set(spaceID, nodeID, val)` that returns no error is followed by
`GetReverse(val) = (spaceID, nodeID, true)`; nodeID and val are arbitrary. -/
theorem set_then_getReverse {σ : Type} (S : Store σ) (hS : Faithful S) (st st2 : σ)
    (spaceID nodeID val : String) (hsep : '!' ∉ spaceID.data)
    (h : Set S st spaceID nodeID val = (st2, none)) :
    GetReverse S st2 val = (spaceID, nodeID, true) := by
  have hr := read_after_Set hS h val
  rw [if_pos rfl] at hr
  simp [GetReverse, reverseCacheKey, hr, SplitN_cacheKey nodeID hsep]

theorem set_then_getReverse_witness :
    '!' ∉ "s1".data ∧
      Set memStore ⟨[], 2⟩ "s1" "n!1" "v" = (⟨[⟨"v", "s1!n!1"⟩, ⟨"s1!n!1", "v"⟩], 2⟩, none) ∧
      GetReverse memStore ⟨[⟨"v", "s1!n!1"⟩, ⟨"s1!n!1", "v"⟩], 2⟩ "v" = ("s1", "n!1", true) :=
  ⟨by decide, by decide,
    set_then_getReverse memStore memStore_faithful ⟨[], 2⟩
      ⟨[⟨"v", "s1!n!1"⟩, ⟨"s1!n!1", "v"⟩], 2⟩ "s1" "n!1" "v" (by decide) (by decide)⟩

/-- C7 (as stated, refuted): starting from an empty faithful backend, after the single
successful call `Set("a", "b", "x!y")` the pair `("x", "y")` was never set, yet
`Get("x", "y")` reports a hit; and `"a!b"` was never a value, yet `GetReverse("a!b")`
reports a hit. -/
theorem miss_on_unset_keys_fails :
    Faithful memStore ∧
      (∀ k, Miss memStore ⟨[], 2⟩ k) ∧
      setAll memStore ⟨[], 2⟩ [("a", "b", "x!y")] =
        (⟨[⟨"x!y", "a!b"⟩, ⟨"a!b", "x!y"⟩], 2⟩, none) ∧
      ("x", "y") ≠ ("a", "b") ∧
      Get memStore ⟨[⟨"x!y", "a!b"⟩, ⟨"a!b", "x!y"⟩], 2⟩ "x" "y" = ("a!b", true) ∧
      "a!b" ≠ "x!y" ∧
      GetReverse memStore ⟨[⟨"x!y", "a!b"⟩, ⟨"a!b", "x!y"⟩], 2⟩ "a!b" = ("x", "y", true) :=
  ⟨memStore_faithful, fun k => Or.inr rfl, by decide, by decide, by decide, by decide,
    by decide⟩

/-- C7 (amended): starting from an empty faithful backend, after any finite sequence of
successful `Set` calls, `Get(s, n)` is a miss for every `(s, n)` whose compound key
`s + "!" + n` is neither the compound key nor the value of one of those calls, and
`GetReverse(v)` is a miss for every `v` that is neither the value nor the compound key of
one of those calls. -/
theorem miss_on_unwritten_keys {σ : Type} (S : Store σ) (hS : Faithful S) (st0 st : σ)
    (calls : List (String × String × String)) (hempty : ∀ k, Miss S st0 k)
    (h : setAll S st0 calls = (st, none)) :
    (∀ s n : String,
        (∀ c ∈ calls, cacheKey s n ≠ cacheKey c.1 c.2.1 ∧ cacheKey s n ≠ c.2.2) →
        Get S st s n = ("", false)) ∧
      (∀ v : String, (∀ c ∈ calls, v ≠ cacheKey c.1 c.2.1 ∧ v ≠ c.2.2) →
        GetReverse S st v = ("", "", false)) := by
  constructor
  · intro s n hk
    apply Get_of_miss
    unfold Miss
    rw [read_after_setAll hS calls st0 st h _ hk]
    exact hempty _
  · intro v hk
    apply GetReverse_of_miss
    unfold Miss
    rw [read_after_setAll hS calls st0 st h _ hk]
    exact hempty _

theorem miss_on_unwritten_keys_witness :
    setAll memStore ⟨[], 4⟩ [("a", "b", "x!y"), ("c", "d", "w")] =
        (⟨[⟨"w", "c!d"⟩, ⟨"c!d", "w"⟩, ⟨"x!y", "a!b"⟩, ⟨"a!b", "x!y"⟩], 4⟩, none) ∧
      Get memStore ⟨[⟨"w", "c!d"⟩, ⟨"c!d", "w"⟩, ⟨"x!y", "a!b"⟩, ⟨"a!b", "x!y"⟩], 4⟩
        "a" "d" = ("", false) ∧
      GetReverse memStore ⟨[⟨"w", "c!d"⟩, ⟨"c!d", "w"⟩, ⟨"x!y", "a!b"⟩, ⟨"a!b", "x!y"⟩], 4⟩
        "z" = ("", "", false) :=
  have h := miss_on_unwritten_keys memStore memStore_faithful ⟨[], 4⟩
    ⟨[⟨"w", "c!d"⟩, ⟨"c!d", "w"⟩, ⟨"x!y", "a!b"⟩, ⟨"a!b", "x!y"⟩], 4⟩
    [("a", "b", "x!y"), ("c", "d", "w")] (fun k => Or.inr rfl) (by decide)
  ⟨by decide, h.1 "a" "d" (by decide), h.2 "z" (by decide)⟩

/-- C8: over a faithful backend whose writes may fail, `Set` returns no error exactly when the
forward write and then the reverse write both succeed; if the forward write fails, `Set`
returns that error and its final state is the one the forward write left, which is the
initial one (no reverse write); if the forward write succeeds and the reverse write fails,
`Set` returns that error and `Get(spaceID, nodeID)` still returns `(val, true)`. -/
theorem set_two_write_errors {σ : Type} (S : Store σ) (hS : Faithful S) (st : σ)
    (spaceID nodeID val : String) :
    ((Set S st spaceID nodeID val).2 = none ↔
        (S.Write st ⟨cacheKey spaceID nodeID, val⟩).2 = none ∧
        (S.Write (S.Write st ⟨cacheKey spaceID nodeID, val⟩).1
          ⟨reverseCacheKey val, cacheKey spaceID nodeID⟩).2 = none) ∧
      (∀ e, (S.Write st ⟨cacheKey spaceID nodeID, val⟩).2 = some e →
        Set S st spaceID nodeID val =
            ((S.Write st ⟨cacheKey spaceID nodeID, val⟩).1, some e) ∧
          Set S st spaceID nodeID val = (st, some e)) ∧
      (∀ e, (S.Write st ⟨cacheKey spaceID nodeID, val⟩).2 = none →
        (S.Write (S.Write st ⟨cacheKey spaceID nodeID, val⟩).1
          ⟨reverseCacheKey val, cacheKey spaceID nodeID⟩).2 = some e →
        (Set S st spaceID nodeID val).2 = some e ∧
          Get S (Set S st spaceID nodeID val).1 spaceID nodeID = (val, true)) := by
  rcases hw1 : S.Write st ⟨cacheKey spaceID nodeID, val⟩ with ⟨st1, e1⟩
  cases e1 with
  | some e1 =>
    have hst : st1 = st := hS.write_err _ _ _ _ hw1
    refine ⟨?_, ?_, ?_⟩
    · simp [Set, hw1]
    · intro e he
      simp only [Option.some.injEq] at he
      subst he
      simp [Set, hw1, hst]
    · intro e he
      simp at he
  | none =>
    rcases hw2 : S.Write st1 ⟨reverseCacheKey val, cacheKey spaceID nodeID⟩ with ⟨st2, e2⟩
    refine ⟨?_, ?_, ?_⟩
    · simp [Set, hw1, hw2]
    · intro e he
      simp at he
    · intro e _ he
      simp only at he
      subst he
      have hst : st2 = st1 := hS.write_err _ _ _ _ hw2
      have hr := hS.write_ok _ _ _ hw1 (cacheKey spaceID nodeID)
      rw [if_pos rfl] at hr
      subst hst
      refine ⟨by simp [Set, hw1, hw2], ?_⟩
      have : (Set S st spaceID nodeID val).1 = st2 := by simp [Set, hw1, hw2]
      rw [this, Get_of_read hr]

theorem set_two_write_errors_witness :
    Faithful memStore ∧
      Set memStore ⟨[], 0⟩ "s1" "n1" "v" = (⟨[], 0⟩, some (Error.msg "store full")) ∧
      (Set memStore ⟨[], 1⟩ "s1" "n1" "v").2 = some (Error.msg "store full") ∧
      Get memStore (Set memStore ⟨[], 1⟩ "s1" "n1" "v").1 "s1" "n1" = ("v", true) :=
  ⟨memStore_faithful,
    ((set_two_write_errors memStore memStore_faithful ⟨[], 0⟩ "s1" "n1" "v").2.1
      (Error.msg "store full") (by decide)).2,
    (set_two_write_errors memStore memStore_faithful ⟨[], 1⟩ "s1" "n1" "v").2.2
      (Error.msg "store full") (by decide) (by decide)⟩

/-- C9 (as stated, refuted): a stored reverse value with two separators, `a!b!c`, is not
rejected: `GetReverse` returns `("a", "b!c", true)`. -/
theorem getReverse_accepts_two_separators :
    memStore.Read ⟨[⟨"v", "a!b!c"⟩], 1⟩ "v" = ([⟨"v", "a!b!c"⟩], none) ∧
      GetReverse memStore ⟨[⟨"v", "a!b!c"⟩], 1⟩ "v" = ("a", "b!c", true) ∧
      GetReverse memStore ⟨[⟨"v", "a!b!c"⟩], 1⟩ "v" ≠ ("", "", false) :=
  ⟨by decide, by decide, by decide⟩

/-- C9 (amended): for every backend, state and `val`, `GetReverse(val)` returns
`("", "", false)` when the backend read fails, returns no record, or the first record's value
contains no separator `!`; otherwise it returns `(a, b, true)` where `a` is the part of the
stored value before its first separator (so `a` is separator-free), `b` is everything after
that separator (`b` may contain further separators), and `a + "!" + b` is the stored value. -/
theorem getReverse_parsing {σ : Type} (S : Store σ) (st : σ) (val : String) :
    ((S.Read st (reverseCacheKey val)).2 ≠ none ∨ (S.Read st (reverseCacheKey val)).1 = [] →
        GetReverse S st val = ("", "", false)) ∧
      (∀ r rs, S.Read st (reverseCacheKey val) = (r :: rs, none) →
        ('!' ∉ r.Value.data → GetReverse S st val = ("", "", false)) ∧
        ('!' ∈ r.Value.data → ∃ a b : String,
          GetReverse S st val = (a, b, true) ∧ a ++ "!" ++ b = r.Value ∧ '!' ∉ a.data)) := by
  refine ⟨fun h => GetReverse_of_miss h, ?_⟩
  intro r rs hr
  constructor
  · intro hsep
    simp [GetReverse, hr, SplitN, splitN, cut_eq_none hsep]
  · intro hsep
    obtain ⟨a, b, hcut⟩ := cut_isSome_of_mem hsep
    obtain ⟨hval, ha⟩ := cut_eq_some hcut
    refine ⟨⟨a⟩, ⟨b⟩, ?_, ?_, ha⟩
    · simp [GetReverse, hr, SplitN, splitN, hcut]
    · apply String.ext
      simp [hval]

end lookup

/-! ## `filepath.Clean` and `filepath.Join` -/

namespace filepath

theorem splitSlash_ne_nil : ∀ p : List Char, splitSlash p ≠ []
  | [] => by simp [splitSlash]
  | c :: cs => by
    unfold splitSlash
    split
    · simp
    · split <;> simp

theorem not_mem_of_mem_splitSlash : ∀ (p : List Char) (e : List Char),
    e ∈ splitSlash p → '/' ∉ e
  | [], e, h => by
    simp [splitSlash] at h
    simp [h]
  | c :: cs, e, h => by
    by_cases hc : c = '/'
    · simp [splitSlash, hc] at h
      rcases h with h | h
      · simp [h]
      · exact not_mem_of_mem_splitSlash cs e h
    · cases hsa : splitSlash cs with
      | nil => exact absurd hsa (splitSlash_ne_nil cs)
      | cons e1 es =>
        simp [splitSlash, hc, hsa] at h
        have h1 : '/' ∉ e1 := not_mem_of_mem_splitSlash cs e1 (by simp [hsa])
        rcases h with h | h
        · subst h
          intro hm
          rcases List.mem_cons.1 hm with x | x
          · exact hc x.symm
          · exact h1 x
        · exact not_mem_of_mem_splitSlash cs e (by simp [hsa, h])

theorem cleanStep_kept (rooted : Bool) {out : List (List Char)} {e : List Char}
    (hout : ∀ x ∈ out, Kept x) (he : '/' ∉ e) : ∀ x ∈ cleanStep rooted out e, Kept x := by
  unfold cleanStep
  by_cases h1 : e = []
  · simpa [h1] using hout
  · by_cases h2 : e = ['.']
    · simpa [h2] using hout
    · have hk : Kept e := ⟨h1, h2, he⟩
      by_cases h3 : e = ['.', '.']
      · cases out with
        | nil =>
          cases rooted
          · simp only [h3]
            intro x hx
            simp at hx
            rw [hx, ← h3]
            exact hk
          · simp [h3]
        | cons last rest =>
          by_cases hl : last = ['.', '.']
          · simp only [h3, hl, if_true]
            intro x hx
            rcases List.mem_cons.1 hx with hx | hx
            · rw [hx, ← h3]
              exact hk
            · exact hout x (by simpa [hl] using hx)
          · simp only [h3, hl, if_false]
            intro x hx
            simp at hx
            exact hout x (List.mem_cons_of_mem _ hx)
      · simp only [h1, h2, h3, if_false]
        intro x hx
        rcases List.mem_cons.1 hx with hx | hx
        · rw [hx]
          exact hk
        · exact hout x hx

theorem foldl_cleanStep_kept (rooted : Bool) : ∀ (es out : List (List Char)),
    (∀ e ∈ es, '/' ∉ e) → (∀ x ∈ out, Kept x) →
    ∀ x ∈ es.foldl (cleanStep rooted) out, Kept x
  | [], out, _, hout => by simpa using hout
  | e :: es, out, hes, hout => by
    rw [List.foldl_cons]
    exact foldl_cleanStep_kept rooted es _ (fun x hx => hes x (List.mem_cons_of_mem _ hx))
      (cleanStep_kept rooted hout (hes e (by simp)))

theorem cleanElems_kept (rooted : Bool) (p : List Char) : ∀ x ∈ cleanElems rooted p, Kept x := by
  intro x hx
  unfold cleanElems at hx
  rw [List.mem_reverse] at hx
  exact foldl_cleanStep_kept rooted _ [] (not_mem_of_mem_splitSlash p) (by simp) x hx

end filepath

/-! ## The blobstore -/

namespace blobstore
open filepath decomposedfs

/-- C1: for every root (and every sharding helper), `path(spaceID, blobID)` returns an error
exactly when spaceID is empty or blobID is empty, and returns a path exactly when both are
non-empty. -/
theorem path_error_iff_empty (Pathify : String → Nat → Nat → String) (bs : Blobstore)
    (spaceID blobID : String) :
    ((∃ err, bs.path Pathify spaceID blobID = .error err) ↔ spaceID = "" ∨ blobID = "") ∧
      ((∃ p, bs.path Pathify spaceID blobID = .ok p) ↔ spaceID ≠ "" ∧ blobID ≠ "") := by
  unfold Blobstore.path
  by_cases hs : spaceID = ""
  · simp [hs]
  · by_cases hb : blobID = ""
    · simp [hs, hb]
    · simp [hs, hb]

theorem Download_of_file {Pathify : String → Nat → Nat → String} {bs : Blobstore} {fs : FS}
    {spaceID blobID dest : String} {content : Bytes} (M : Int)
    (hdest : bs.path Pathify spaceID blobID = .ok dest)
    (hfile : fs.files dest = some content) :
    bs.Download Pathify fs spaceID blobID M =
      if (content.length : Int) ≠ M then .error (Error.unexpectedSize M content.length)
      else .ok ⟨dest⟩ := by
  simp only [Blobstore.Download, hdest, Open, hfile, File.Size]

/-- C4: when `dest`, the path derived from (spaceID, blobID) (both non-empty, as `path`
returns no error), holds a file of size S, `Download(spaceID, blobID, M)` returns an error
(and no handle) for every M other than S, negative M included, and returns a read handle on
that file with no error when M is S. -/
theorem download_size_check (Pathify : String → Nat → Nat → String) (bs : Blobstore) (fs : FS)
    (spaceID blobID dest : String) (content : Bytes) (M : Int)
    (hdest : bs.path Pathify spaceID blobID = .ok dest)
    (hfile : fs.files dest = some content) :
    (M ≠ content.length →
        bs.Download Pathify fs spaceID blobID M =
          .error (Error.unexpectedSize M content.length)) ∧
      (M = content.length →
        bs.Download Pathify fs spaceID blobID M = .ok ⟨dest⟩ ∧
          File.ReadAll fs ⟨dest⟩ = content) := by
  rw [Download_of_file M hdest hfile]
  constructor
  · intro h
    rw [if_pos (fun e => h e.symm)]
  · intro h
    rw [if_neg (fun e => e h.symm)]
    simp [File.ReadAll, hfile]

/-- C2: let `dest` be the path derived from (spaceID, blobID) (both non-empty, as `path`
returns no error). When the source file holds `content` and no blob exists at `dest`, an
`Upload(spaceID, blobID, N, source)` with N the length of `content` that returns no error
(by the rename or by the copy fallback) is followed by a `Download(spaceID, blobID, N)` that
returns a read handle yielding exactly `content`. -/
theorem upload_download_roundtrip (Pathify : String → Nat → Nat → String) (bs : Blobstore)
    (env : Faults) (fs fs1 : FS) (spaceID blobID source dest : String) (content : Bytes)
    (hdest : bs.path Pathify spaceID blobID = .ok dest)
    (hsrc : fs.files source = some content) (hnew : fs.files dest = none)
    (hup : bs.Upload Pathify env fs spaceID blobID content.length source = (fs1, none)) :
    bs.Download Pathify fs1 spaceID blobID content.length = .ok ⟨dest⟩ ∧
      File.ReadAll fs1 ⟨dest⟩ = content := by
  have hne : source ≠ dest := by
    intro e
    rw [e, hnew] at hsrc
    exact absurd hsrc (by simp)
  have key : fs1.files dest = some content := by
    simp only [Blobstore.Upload, hdest, MkdirAll] at hup
    cases hm : env.mkdirAll with
    | some e => simp [hm] at hup
    | none =>
      simp only [hm, Rename] at hup
      cases hr : env.rename with
      | none =>
        simp only [hr, hsrc, Prod.mk.injEq, and_true] at hup
        subst hup
        simp
      | some e =>
        simp only [hr, Open, hsrc, OpenFile] at hup
        cases ho : env.openFile with
        | some e => simp [ho] at hup
        | none =>
          simp only [ho, hnew, ReadFrom] at hup
          cases hc : env.readFrom with
          | some e => simp [hc] at hup
          | none =>
            simp only [hc, Flush, Prod.mk.injEq] at hup
            obtain ⟨h1, _⟩ := hup
            subst h1
            simp [File.ReadAll, writeAt0, hne, hsrc]
  rw [Download_of_file _ hdest key]
  simp [File.ReadAll, key]

/-- What a successful `Upload` leaves at `dest` when a blob `old` is already there and the
source holds `new`: the rename leaves `new`; the copy fallback leaves `new` followed by the
bytes of `old` beyond the length of `new`. -/
theorem upload_over_existing_blob (Pathify : String → Nat → Nat → String) (bs : Blobstore)
    (env : Faults) (fs fs1 : FS) (spaceID blobID source dest : String) (old new : Bytes)
    (blobSize : Int) (hdest : bs.path Pathify spaceID blobID = .ok dest)
    (hold : fs.files dest = some old) (hsrc : fs.files source = some new)
    (hup : bs.Upload Pathify env fs spaceID blobID blobSize source = (fs1, none)) :
    fs1.files dest =
      match env.rename with
      | none => some new
      | some _ => some (new ++ old.drop new.length) := by
  simp only [Blobstore.Upload, hdest, MkdirAll] at hup
  cases hm : env.mkdirAll with
  | some e => simp [hm] at hup
  | none =>
    simp only [hm, Rename] at hup
    cases hr : env.rename with
    | none =>
      simp only [hr, hsrc, Prod.mk.injEq, and_true] at hup
      subst hup
      simp
    | some e =>
      simp only [hr, Open, hsrc, OpenFile] at hup
      cases ho : env.openFile with
      | some e => simp [ho] at hup
      | none =>
        simp only [ho, hold, ReadFrom] at hup
        cases hc : env.readFrom with
        | some e => simp [hc] at hup
        | none =>
          simp only [hc, Flush, Prod.mk.injEq] at hup
          obtain ⟨h1, _⟩ := hup
          subst h1
          simp [File.ReadAll, writeAt0, hsrc, hold]

/-- C3 (the code at the failing input): under the root `/tmp/store`, `hello` is uploaded to
(`space1`, `blobA`) by the rename, then `hi` is uploaded to the same blob with the rename
failing across devices, so by the copy fallback. Both calls return no error, the blob then
holds `hillo` (the tail of the first payload remains), and `Download` with size 2 fails with
the size mismatch "2 bytes expected, got 5 bytes". -/
theorem upload_fallback_keeps_old_tail :
    (Blobstore.Upload Pathify ⟨"/tmp/store"⟩ noFaults srcFS "space1" "blobA" 5 "/tmp/src1").2 = none ∧
    (Blobstore.Upload Pathify ⟨"/tmp/store"⟩ crossDevice
      (Blobstore.Upload Pathify ⟨"/tmp/store"⟩ noFaults srcFS "space1" "blobA" 5 "/tmp/src1").1
      "space1" "blobA" 2 "/tmp/src2").2 = none ∧
    (Blobstore.Upload Pathify ⟨"/tmp/store"⟩ crossDevice
      (Blobstore.Upload Pathify ⟨"/tmp/store"⟩ noFaults srcFS "space1" "blobA" 5 "/tmp/src1").1
      "space1" "blobA" 2 "/tmp/src2").1.files "/tmp/store/spaces/sp/ace1/blobs/bl/ob/A"
        = some [104, 105, 108, 108, 111] ∧
    Blobstore.Download Pathify ⟨"/tmp/store"⟩ (Blobstore.Upload Pathify ⟨"/tmp/store"⟩ crossDevice
      (Blobstore.Upload Pathify ⟨"/tmp/store"⟩ noFaults srcFS "space1" "blobA" 5 "/tmp/src1").1
      "space1" "blobA" 2 "/tmp/src2").1 "space1" "blobA" 2 = .error (Error.unexpectedSize 2 5) := by
  refine ⟨by decide, by decide, by decide, by decide⟩

/-- The model of `filepath.Clean` and `filepath.Join` on cases of the Go documentation and
test table. -/
theorem Clean_Join_examples :
    Clean "" = "." ∧ Clean "abc//def//ghi" = "abc/def/ghi" ∧ Clean "abc/./def" = "abc/def" ∧
      Clean "abc/def/../ghi/../jkl" = "abc/jkl" ∧ Clean "abc/def/../.." = "." ∧
      Clean "/abc/def/../../.." = "/" ∧ Clean "abc/def/../../.." = ".." ∧
      Clean "abc/def/../../../ghi/jkl/../../../mno" = "../../mno" ∧
      Clean "/../abc" = "/abc" ∧ Clean "abc/" = "abc" ∧ Clean "../../" = "../.." ∧
      Join ["a", "b"] = "a/b" ∧ Join ["a", ""] = "a" ∧ Join ["", "b"] = "b" ∧
      Join ["/", "a"] = "/a" ∧ Join ["a/b", "../../../xyz"] = "../xyz" ∧
      Join ["", ""] = "" := by
  decide

/-- The model of `filepath.Dir` on cases of the Go documentation. -/
theorem Dir_examples :
    Dir "/foo/bar/baz.js" = "/foo/bar" ∧ Dir "/foo/bar/baz" = "/foo/bar" ∧
      Dir "/foo/bar/baz/" = "/foo/bar/baz" ∧ Dir "dev.txt" = "." ∧ Dir "../todo.txt" = ".." ∧
      Dir ".." = "." ∧ Dir "/" = "/" ∧ Dir "" = "." ∧
      Dir "/tmp/store/spaces/sp/ace1/blobs/bl/ob/A" = "/tmp/store/spaces/sp/ace1/blobs/bl/ob" := by
  decide

theorem upload_download_roundtrip_witness :
    Blobstore.path Pathify ⟨"/tmp/store"⟩ "space1" "blobA" =
        .ok "/tmp/store/spaces/sp/ace1/blobs/bl/ob/A" ∧
      srcFS.files "/tmp/src1" = some [104, 101, 108, 108, 111] ∧
      srcFS.files "/tmp/store/spaces/sp/ace1/blobs/bl/ob/A" = none ∧
      Blobstore.Download Pathify ⟨"/tmp/store"⟩
          (Blobstore.Upload Pathify ⟨"/tmp/store"⟩ crossDevice srcFS "space1" "blobA" 5
            "/tmp/src1").1 "space1" "blobA" 5 =
        .ok ⟨"/tmp/store/spaces/sp/ace1/blobs/bl/ob/A"⟩ ∧
      File.ReadAll
          (Blobstore.Upload Pathify ⟨"/tmp/store"⟩ crossDevice srcFS "space1" "blobA" 5
            "/tmp/src1").1 ⟨"/tmp/store/spaces/sp/ace1/blobs/bl/ob/A"⟩ =
        [104, 101, 108, 108, 111] :=
  ⟨by decide, by decide, by decide,
    upload_download_roundtrip Pathify ⟨"/tmp/store"⟩ crossDevice srcFS
      (Blobstore.Upload Pathify ⟨"/tmp/store"⟩ crossDevice srcFS "space1" "blobA" 5
        "/tmp/src1").1 "space1" "blobA" "/tmp/src1" "/tmp/store/spaces/sp/ace1/blobs/bl/ob/A"
      [104, 101, 108, 108, 111] (by decide) (by decide) (by decide)
      (Prod.ext rfl (by decide))⟩

theorem download_size_check_witness :
    Blobstore.Download Pathify ⟨"/tmp/store"⟩ blobFS "space1" "blobA" 4 =
        .error (Error.unexpectedSize 4 5) ∧
      Blobstore.Download Pathify ⟨"/tmp/store"⟩ blobFS "space1" "blobA" (-1) =
        .error (Error.unexpectedSize (-1) 5) ∧
      Blobstore.Download Pathify ⟨"/tmp/store"⟩ blobFS "space1" "blobA" 5 =
        .ok ⟨"/tmp/store/spaces/sp/ace1/blobs/bl/ob/A"⟩ :=
  ⟨(download_size_check Pathify ⟨"/tmp/store"⟩ blobFS "space1" "blobA"
      "/tmp/store/spaces/sp/ace1/blobs/bl/ob/A" [104, 101, 108, 108, 111] 4
      (by decide) (by decide)).1 (by decide),
    (download_size_check Pathify ⟨"/tmp/store"⟩ blobFS "space1" "blobA"
      "/tmp/store/spaces/sp/ace1/blobs/bl/ob/A" [104, 101, 108, 108, 111] (-1)
      (by decide) (by decide)).1 (by decide),
    ((download_size_check Pathify ⟨"/tmp/store"⟩ blobFS "space1" "blobA"
      "/tmp/store/spaces/sp/ace1/blobs/bl/ob/A" [104, 101, 108, 108, 111] 5
      (by decide) (by decide)).2 (by decide)).1⟩

end blobstore
